import Mathlib

/-!
Verification of the simpleRPC implementation: a shallow embedding of the
client call bookkeeping, the server method lookup and serve loop, the
broadcast aggregation, the heartbeat registry, the HTTP CONNECT upgrade and
the option parsing, with theorems settling the specification claims.
-/

/-! ## Client data model (src/unnamed/part_001) -/

/-- The sentinel error message of `ErrShutdown = errors.New("connection is shut down")`. -/
def ErrShutdownMsg : String := "connection is shut down"

/-- Client-side view of a `Call`: its service method and its `Error` slot
(`none` while no error has been attached). `Seq`, `Done` and the reply slot
are tracked by the surrounding state and event lists. -/
structure PCall where
  serviceMethod : String
  err : Option String
  deriving DecidableEq, Repr

/-- The mutable fields of `Client` guarded by `client.mu`: the next sequence
number `seq` (a Go `uint64`), the `pending` map from sequence numbers to
calls, and the two state flags `closing` and `shutdown`. -/
structure ClientState where
  seq : Nat
  pending : List (Nat × PCall)
  closing : Bool
  shutdown : Bool
  deriving DecidableEq, Repr

/-- Go map store `m[k] = v`: overwrite the entry when the key is present,
otherwise add it. -/
def mapInsert (l : List (Nat × PCall)) (k : Nat) (v : PCall) : List (Nat × PCall) :=
  if l.any (fun p => p.fst == k) then
    l.map (fun p => if p.fst == k then (k, v) else p)
  else l ++ [(k, v)]

/-- The client state built by `newClientCodec`: `seq` starts at 1, `pending`
is empty, both flags are false. -/
def newClientCodecState : ClientState :=
  { seq := 1, pending := [], closing := false, shutdown := false }

/-- `Client.registerCall`: under `client.mu`, fail with `ErrShutdown` when
`closing || shutdown`; otherwise assign `call.Seq = client.seq`, store the
call in `pending`, and increment `client.seq` (a `uint64`, hence mod 2^64). -/
def registerCall (s : ClientState) (c : PCall) : Except String Nat × ClientState :=
  if s.closing || s.shutdown then (Except.error ErrShutdownMsg, s)
  else (Except.ok s.seq,
    { s with pending := mapInsert s.pending s.seq c, seq := (s.seq + 1) % 2 ^ 64 })

/-- `Client.removeCall`: look the sequence number up in `pending`, delete the
entry, and return the call (or `none` when absent, as a Go map read yields
the zero value). -/
def removeCall (s : ClientState) (q : Nat) : Option PCall × ClientState :=
  (((s.pending.find? (fun p => p.fst == q)).map Prod.snd),
   { s with pending := s.pending.filter (fun p => p.fst != q) })

/-- `Client.terminateCalls(err)`: set `shutdown := true` and, for every
pending call, set its `Error` to `err` and fire its done signal. The second
component lists the calls whose done fired, with the error attached; the
`pending` map itself keeps its entries. -/
def terminateCalls (s : ClientState) (e : String) : ClientState × List (Nat × PCall) :=
  let fired := s.pending.map (fun p => (p.fst, { p.snd with err := some e }))
  ({ s with shutdown := true, pending := fired }, fired)

/-- Result of `Client.Close`: either the `ErrShutdown` sentinel, or the
result of actually closing the codec (`client.cc.Close()`). -/
inductive CloseResult where
  | errShutdown
  | codecClosed
  deriving DecidableEq, Repr

/-- `Client.Close`: under `client.mu`, return `ErrShutdown` when already
`closing`; otherwise set `closing := true` and close the codec. -/
def ClientClose (s : ClientState) : CloseResult × ClientState :=
  if s.closing then (CloseResult.errShutdown, s)
  else (CloseResult.codecClosed, { s with closing := true })

/-- The operations serialized by `client.mu`, in the order some interleaving
of goroutines acquired the mutex. -/
inductive ClientOp where
  | register (c : PCall)
  | remove (q : Nat)
  | terminate (e : String)
  | close
  deriving Repr

/-- One mutex-protected operation applied to the client state. -/
def stepOp (s : ClientState) : ClientOp → ClientState
  | ClientOp.register c => (registerCall s c).snd
  | ClientOp.remove q => (removeCall s q).snd
  | ClientOp.terminate e => (terminateCalls s e).fst
  | ClientOp.close => (ClientClose s).snd

/-- Run a serialized trace of client operations. -/
def runOps (s : ClientState) (ops : List ClientOp) : ClientState :=
  ops.foldl stepOp s

/-- The sequence numbers handed out by the successful `registerCall`s of a
trace, in trace order. -/
def assignedSeqs : ClientState → List ClientOp → List Nat
  | _, [] => []
  | s, ClientOp.register c :: ops =>
    match registerCall s c with
    | (Except.ok q, s2) => q :: assignedSeqs s2 ops
    | (Except.error _, s2) => assignedSeqs s2 ops
  | s, ClientOp.remove q :: ops => assignedSeqs (removeCall s q).snd ops
  | s, ClientOp.terminate e :: ops => assignedSeqs (terminateCalls s e).fst ops
  | s, ClientOp.close :: ops => assignedSeqs (ClientClose s).snd ops

/-! ## C1: sequence numbers are strictly increasing and never reused -/

theorem removeCall_seq (s : ClientState) (q : Nat) : ((removeCall s q).snd).seq = s.seq := rfl

theorem terminateCalls_seq (s : ClientState) (e : String) :
    ((terminateCalls s e).fst).seq = s.seq := rfl

theorem ClientClose_seq (s : ClientState) : ((ClientClose s).snd).seq = s.seq := by
  unfold ClientClose
  by_cases h : s.closing <;> simp [h]

theorem assignedSeqs_bounds (ops : List ClientOp) (s : ClientState)
    (h : s.seq + ops.length < 2 ^ 64) :
    (∀ x ∈ assignedSeqs s ops, s.seq ≤ x) ∧
      (assignedSeqs s ops).Pairwise (fun a b => a < b) := by
  induction ops generalizing s with
  | nil => simp [assignedSeqs]
  | cons op ops ih =>
    cases op with
    | register c =>
      by_cases hflag : (s.closing || s.shutdown) = true
      · have hreg : registerCall s c = (Except.error ErrShutdownMsg, s) := by
          unfold registerCall
          simp [hflag]
        have hh : s.seq + ops.length < 2 ^ 64 := by
          simp at h
          omega
        have := ih s hh
        simpa [assignedSeqs, hreg] using this
      · have hlt : s.seq + 1 < 2 ^ 64 := by
          simp at h
          omega
        have hmod : (s.seq + 1) % 2 ^ 64 = s.seq + 1 := Nat.mod_eq_of_lt hlt
        have hreg : registerCall s c =
            (Except.ok s.seq,
              { s with pending := mapInsert s.pending s.seq c, seq := s.seq + 1 }) := by
          unfold registerCall
          simp [hflag, hmod]
          omega
        set s2 : ClientState :=
          { s with pending := mapInsert s.pending s.seq c, seq := s.seq + 1 } with hs2
        have hh : s2.seq + ops.length < 2 ^ 64 := by
          simp [hs2] at h ⊢
          omega
        obtain ⟨hb, hp⟩ := ih s2 hh
        have hs2seq : s2.seq = s.seq + 1 := rfl
        constructor
        · intro x hx
          simp [assignedSeqs, hreg] at hx
          rcases hx with hx | hx
          · omega
          · have := hb x hx
            omega
        · simp [assignedSeqs, hreg]
          refine ⟨?_, hp⟩
          intro x hx
          have := hb x hx
          omega
    | remove q =>
      have hh : ((removeCall s q).snd).seq + ops.length < 2 ^ 64 := by
        rw [removeCall_seq]
        simp at h
        omega
      have := ih (removeCall s q).snd hh
      rw [removeCall_seq] at this
      simpa [assignedSeqs] using this
    | terminate e =>
      have hh : ((terminateCalls s e).fst).seq + ops.length < 2 ^ 64 := by
        rw [terminateCalls_seq]
        simp at h
        omega
      have := ih (terminateCalls s e).fst hh
      rw [terminateCalls_seq] at this
      simpa [assignedSeqs] using this
    | close =>
      have hh : ((ClientClose s).snd).seq + ops.length < 2 ^ 64 := by
        rw [ClientClose_seq]
        simp at h
        omega
      have := ih (ClientClose s).snd hh
      rw [ClientClose_seq] at this
      simpa [assignedSeqs] using this

/-- C1: for any serialized trace of client operations starting from the state
built by `newClientCodec` (with fewer than 2^64 − 1 operations, so the uint64
counter cannot wrap), the sequence numbers assigned by the successful
`registerCall`s are strictly increasing in registration order; hence any two
registered calls receive distinct `Seq` values and a later-registered call
receives a strictly larger one. -/
theorem registerCall_seqs_strictly_increasing (ops : List ClientOp)
    (h : newClientCodecState.seq + ops.length < 2 ^ 64) :
    (assignedSeqs newClientCodecState ops).Pairwise (fun a b => a < b) :=
  (assignedSeqs_bounds ops newClientCodecState h).2

/-- Witness for C1: a concrete trace of two registrations and a removal
assigns the strictly increasing sequence numbers 1 and 2. -/
theorem registerCall_seqs_strictly_increasing_witness :
    newClientCodecState.seq + 3 < 2 ^ 64 ∧
      (assignedSeqs newClientCodecState
        [ClientOp.register ⟨"Foo.Sum", none⟩, ClientOp.register ⟨"Foo.Sum", none⟩,
          ClientOp.remove 1]).Pairwise (fun a b => a < b) :=
  ⟨by decide,
    registerCall_seqs_strictly_increasing
      [ClientOp.register ⟨"Foo.Sum", none⟩, ClientOp.register ⟨"Foo.Sum", none⟩,
        ClientOp.remove 1] (by decide)⟩

/-! ## Client receive path (src/unnamed/part_001, Client.receive) -/

/-- The codec `Header`: service method path, sequence number and error
string (empty on success). -/
structure Header where
  ServiceMethod : String
  Seq : Nat
  Error : String
  deriving DecidableEq, Repr

/-- One iteration of `Client.receive` after a header was read: remove the
matching pending call; when no call matches, drain the body; when the header
carries an error, attach it to the call and fire done; otherwise decode the
body into the reply slot (`decodeErr = some m` models a `ReadBody` failure
with message `m`), attach `"reading body " ++ m` on failure, and fire done
either way. The second component is the call whose done signal fired. -/
def receiveCase (s : ClientState) (h : Header) (decodeErr : Option String) :
    ClientState × Option (Nat × PCall) :=
  let r := removeCall s h.Seq
  match r.fst with
  | none => (r.snd, none)
  | some c =>
    if h.Error ≠ "" then (r.snd, some (h.Seq, { c with err := some h.Error }))
    else
      match decodeErr with
      | some m => (r.snd, some (h.Seq, { c with err := some ("reading body " ++ m) }))
      | none => (r.snd, some (h.Seq, c))

theorem receiveCase_fst (s : ClientState) (h : Header) (d : Option String) :
    (receiveCase s h d).fst = (removeCall s h.Seq).snd := by
  unfold receiveCase
  rcases hr : (removeCall s h.Seq).fst with _ | c
  · simp [hr]
  · by_cases hE : h.Error = ""
    · cases d <;> simp [hr, hE]
    · simp [hr, hE]

/-! ## C2: removal of pending entries on the three terminal events -/

/-- C2 counterexample: on a client with one pending call, `terminateCalls`
returns with the pending map still holding that entry, so the pending map is
not emptied by connection teardown. -/
theorem terminateCalls_keeps_pending_cex :
    ((terminateCalls
        { seq := 2, pending := [(1, { serviceMethod := "Foo.Sum", err := none })],
          closing := false, shutdown := false } "write error").fst).pending ≠ [] := by
  decide

/-- C2 (amended): a pending entry is removed when a matching response arrives
(`receive` removes it) and when the caller cancels (`removeCall`); but
`terminateCalls(err)` only sets `shutdown`, attaches the error to every
pending call and fires its done signal, leaving the pending map with exactly
the same keys it had. -/
theorem pending_removal_and_teardown (s : ClientState) (e : String) :
    ((terminateCalls s e).fst).pending.map Prod.fst = s.pending.map Prod.fst ∧
    ((terminateCalls s e).fst).shutdown = true ∧
    (∀ p ∈ s.pending, (p.fst, { p.snd with err := some e }) ∈ (terminateCalls s e).snd) ∧
    (∀ q, ∀ p ∈ ((removeCall s q).snd).pending, p.fst ≠ q) ∧
    (∀ h d, ∀ p ∈ ((receiveCase s h d).fst).pending, p.fst ≠ h.Seq) := by
  refine ⟨?_, rfl, ?_, ?_, ?_⟩
  · simp [terminateCalls]
  · intro p hp
    simp [terminateCalls]
    exact ⟨p.fst, p.snd, by simpa using hp, rfl, rfl⟩
  · intro q p hp
    simp [removeCall, List.mem_filter] at hp
    exact hp.2
  · intro h d p hp
    rw [receiveCase_fst] at hp
    simp [removeCall, List.mem_filter] at hp
    exact hp.2

/-- Witness for C2 (amended): on a concrete client with pending entry 1,
teardown fires that call's done with the error and sets shutdown. -/
theorem pending_removal_and_teardown_witness :
    (1, PCall.mk "Foo.Sum" (some "boom")) ∈
      (terminateCalls
        { seq := 2, pending := [(1, { serviceMethod := "Foo.Sum", err := none })],
          closing := false, shutdown := false } "boom").snd ∧
    ((terminateCalls
        { seq := 2, pending := [(1, { serviceMethod := "Foo.Sum", err := none })],
          closing := false, shutdown := false } "boom").fst).shutdown = true :=
  ⟨(pending_removal_and_teardown
      { seq := 2, pending := [(1, { serviceMethod := "Foo.Sum", err := none })],
        closing := false, shutdown := false } "boom").2.2.1
      (1, { serviceMethod := "Foo.Sum", err := none }) (by decide),
   (pending_removal_and_teardown
      { seq := 2, pending := [(1, { serviceMethod := "Foo.Sum", err := none })],
        closing := false, shutdown := false } "boom").2.1⟩

/-! ## C3: decode failure on the receive path -/

/-- C3 counterexample: for a matching response with empty header error whose
body decode fails with message "boom", the call's error is the string
"reading body boom" (no colon), not "reading body: boom" as claimed. -/
theorem receive_decode_error_colon_cex :
    (receiveCase
        { seq := 2, pending := [(5, { serviceMethod := "Foo.Sum", err := none })],
          closing := false, shutdown := false }
        { ServiceMethod := "Foo.Sum", Seq := 5, Error := "" } (some "boom")).snd =
      some (5, { serviceMethod := "Foo.Sum", err := some "reading body boom" }) ∧
    (receiveCase
        { seq := 2, pending := [(5, { serviceMethod := "Foo.Sum", err := none })],
          closing := false, shutdown := false }
        { ServiceMethod := "Foo.Sum", Seq := 5, Error := "" } (some "boom")).snd ≠
      some (5, { serviceMethod := "Foo.Sum", err := some "reading body: boom" }) := by
  decide

/-- C3 (amended): on the receive path, for a response header with empty
`Error` matching a pending call, a body-decode failure with message `m` sets
the call's error to `"reading body " ++ m` (space, no colon), and the done
signal fires whether or not the decode succeeded. -/
theorem receive_decode_error_and_done (s : ClientState) (h : Header) (c : PCall)
    (dres : Option String) (hE : h.Error = "")
    (hfind : s.pending.find? (fun p => p.fst == h.Seq) = some (h.Seq, c)) :
    (receiveCase s h dres).snd =
      some (h.Seq,
        { c with err := match dres with
                        | some m => some ("reading body " ++ m)
                        | none => c.err }) := by
  unfold receiveCase
  have hfst : (removeCall s h.Seq).fst = some c := by
    simp [removeCall, hfind]
  cases dres <;> simp [hfst, hE]

/-- Witness for C3 (amended): concrete client, matching header with empty
error, decode failing with "boom": done fires with error
"reading body " ++ "boom". -/
theorem receive_decode_error_and_done_witness :
    (receiveCase
        { seq := 2, pending := [(5, { serviceMethod := "Foo.Sum", err := none })],
          closing := false, shutdown := false }
        { ServiceMethod := "Foo.Sum", Seq := 5, Error := "" } (some "boom")).snd =
      some (5, { serviceMethod := "Foo.Sum", err := some ("reading body " ++ "boom") }) :=
  receive_decode_error_and_done
    { seq := 2, pending := [(5, { serviceMethod := "Foo.Sum", err := none })],
      closing := false, shutdown := false }
    { ServiceMethod := "Foo.Sum", Seq := 5, Error := "" }
    { serviceMethod := "Foo.Sum", err := none } (some "boom") rfl (by decide)

/-! ## C4: Close is idempotent-guarded and the shutdown sentinel is sticky -/

theorem stepOp_closing (s : ClientState) (op : ClientOp) (h : s.closing = true) :
    (stepOp s op).closing = true := by
  cases op with
  | register c => simp [stepOp, registerCall, h]
  | remove q => simp [stepOp, removeCall, h]
  | terminate e => simp [stepOp, terminateCalls, h]
  | close =>
    unfold stepOp ClientClose
    simp [h]

theorem stepOp_shutdown (s : ClientState) (op : ClientOp) (h : s.shutdown = true) :
    (stepOp s op).shutdown = true := by
  cases op with
  | register c => simp [stepOp, registerCall, h]
  | remove q => simp [stepOp, removeCall, h]
  | terminate e => simp [stepOp, terminateCalls]
  | close =>
    unfold stepOp ClientClose
    by_cases hc : s.closing <;> simp [hc, h]

theorem runOps_closing (ops : List ClientOp) (s : ClientState) (h : s.closing = true) :
    (runOps s ops).closing = true := by
  induction ops generalizing s with
  | nil => simpa [runOps] using h
  | cons op ops ih =>
    rw [runOps, List.foldl_cons]
    exact ih (stepOp s op) (stepOp_closing s op h)

theorem runOps_shutdown (ops : List ClientOp) (s : ClientState) (h : s.shutdown = true) :
    (runOps s ops).shutdown = true := by
  induction ops generalizing s with
  | nil => simpa [runOps] using h
  | cons op ops ih =>
    rw [runOps, List.foldl_cons]
    exact ih (stepOp s op) (stepOp_shutdown s op h)

/-- C4: the first `Close` on a client that is not already closing sets
`closing` and closes the codec; once `closing` is set it stays set, so every
subsequent `Close` (after any further serialized operations) returns the
`ErrShutdown` sentinel; and once `closing` or `shutdown` is true, every
subsequent `registerCall` fails with that same sentinel. -/
theorem Close_idempotent_guarded (s : ClientState) :
    (s.closing = false → ClientClose s = (CloseResult.codecClosed, { s with closing := true })) ∧
    (s.closing = true → ClientClose s = (CloseResult.errShutdown, s)) ∧
    (s.closing = false →
      ∀ ops, (ClientClose (runOps (ClientClose s).snd ops)).fst = CloseResult.errShutdown) ∧
    ((s.closing = true ∨ s.shutdown = true) →
      ∀ ops c, (registerCall (runOps s ops) c).fst = Except.error ErrShutdownMsg) := by
  refine ⟨?_, ?_, ?_, ?_⟩
  · intro h
    simp [ClientClose, h]
  · intro h
    simp [ClientClose, h]
  · intro h ops
    have h1 : ((ClientClose s).snd).closing = true := by
      simp [ClientClose, h]
    have h2 := runOps_closing ops (ClientClose s).snd h1
    set t := runOps (ClientClose s).snd ops with ht
    simp [ClientClose, h2]
  · intro h ops c
    have h2 : ((runOps s ops).closing || (runOps s ops).shutdown) = true := by
      rcases h with h | h
      · simp [runOps_closing ops s h]
      · simp [runOps_shutdown ops s h]
    simp [registerCall, h2]

/-- Witness for C4: from the fresh client state, the first Close closes the
codec, a Close after further operations returns the sentinel, and after a
teardown (`shutdown`) a registration fails with the sentinel. -/
theorem Close_idempotent_guarded_witness :
    ClientClose newClientCodecState =
      (CloseResult.codecClosed, { newClientCodecState with closing := true }) ∧
    (ClientClose (runOps (ClientClose newClientCodecState).snd
        [ClientOp.register ⟨"Foo.Sum", none⟩])).fst = CloseResult.errShutdown ∧
    (registerCall (runOps { seq := 1, pending := [], closing := false, shutdown := true }
        [ClientOp.remove 3]) ⟨"Foo.Sum", none⟩).fst = Except.error ErrShutdownMsg :=
  ⟨(Close_idempotent_guarded newClientCodecState).1 rfl,
   (Close_idempotent_guarded newClientCodecState).2.2.1 rfl
     [ClientOp.register ⟨"Foo.Sum", none⟩],
   (Close_idempotent_guarded { seq := 1, pending := [], closing := false, shutdown := true }).2.2.2
     (Or.inr rfl) [ClientOp.remove 3] ⟨"Foo.Sum", none⟩⟩

/-! ## Server method lookup and serve loop (src/server.go) -/

/-- Index of the rightmost '.' in a character list, as computed by
`strings.LastIndex(serviceMethod, ".")` (with `none` for the −1 result). -/
def lastIndexDot : List Char → Option Nat
  | [] => none
  | c :: cs =>
    match lastIndexDot cs with
    | some i => some (i + 1)
    | none => if c = '.' then some 0 else none

/-- The three error shapes of `Server.findService`, each carrying the string
interpolated into its message. -/
inductive FindErr where
  | illFormed (sm : String)
  | serviceNotFound (svc : String)
  | methodNotFound (m : String)
  deriving DecidableEq, Repr

/-- The error message `findService` builds for each failure. -/
def FindErr.msg : FindErr → String
  | FindErr.illFormed sm => "rpc server: service/method request ill-formed: " ++ sm
  | FindErr.serviceNotFound s => "rpc server: can't find service " ++ s
  | FindErr.methodNotFound m => "rpc server: can't find method " ++ m

/-- A registered service: its name and the names of its eligible methods
(the keys of `service.method`). -/
structure ServiceModel where
  name : String
  methods : List String
  deriving DecidableEq, Repr

/-- `Server.findService`: split `serviceMethod` at the rightmost '.', then
look the service name up in the service map and the method name up in the
service; each failure yields its distinct error. -/
def findService (serviceMap : List ServiceModel) (serviceMethod : String) :
    Except FindErr (String × String) :=
  match lastIndexDot serviceMethod.data with
  | none => Except.error (FindErr.illFormed serviceMethod)
  | some dot =>
    let serviceName : String := ⟨serviceMethod.data.take dot⟩
    let methodName : String := ⟨serviceMethod.data.drop (dot + 1)⟩
    match serviceMap.find? (fun sv => sv.name == serviceName) with
    | none => Except.error (FindErr.serviceNotFound serviceName)
    | some sv =>
      if methodName ∈ sv.methods then Except.ok (serviceName, methodName)
      else Except.error (FindErr.methodNotFound methodName)

/-- What the server reads next on a connection: a header-read failure (which
ends the request loop), or a request whose body decode either succeeds
(`none`) or fails with a message. -/
inductive WireEvent where
  | headerFail
  | request (h : Header) (bodyErr : Option String)
  deriving Repr

/-- What the serve loop emits per request: an error response carrying the
failure message under the request sequence, or a dispatch of a well-formed
request to a handler goroutine. -/
inductive SrvEvent where
  | errorResponse (seq : Nat) (msg : String)
  | dispatched (seq : Nat)
  deriving DecidableEq, Repr

/-- `Server.serveCodec`'s request loop: read requests until a header read
fails; a `readRequest` failure with a non-nil request (service lookup or body
decode failure) sends an error response and continues; otherwise the request
is dispatched. -/
def serveCodec (smap : List ServiceModel) : List WireEvent → List SrvEvent
  | [] => []
  | WireEvent.headerFail :: _ => []
  | WireEvent.request h bodyErr :: rest =>
    match findService smap h.ServiceMethod with
    | Except.error e => SrvEvent.errorResponse h.Seq e.msg :: serveCodec smap rest
    | Except.ok _ =>
      match bodyErr with
      | some m => SrvEvent.errorResponse h.Seq m :: serveCodec smap rest
      | none => SrvEvent.dispatched h.Seq :: serveCodec smap rest

theorem lastIndexDot_eq_none (l : List Char) (h : '.' ∉ l) : lastIndexDot l = none := by
  induction l with
  | nil => rfl
  | cons c cs ih =>
    simp only [List.mem_cons, not_or] at h
    have h1 : ¬(c = '.') := fun hc => h.1 hc.symm
    simp only [lastIndexDot]
    rw [ih h.2]
    simp [h1]

theorem lastIndexDot_append (a b : List Char) (hb : '.' ∉ b) :
    lastIndexDot (a ++ '.' :: b) = some a.length := by
  induction a with
  | nil =>
    simp only [List.nil_append, lastIndexDot]
    rw [lastIndexDot_eq_none b hb]
    simp
  | cons c a ih =>
    simp only [List.cons_append, lastIndexDot, List.append_eq]
    rw [ih]
    simp

theorem take_append_cons (a b : List Char) (c : Char) : (a ++ c :: b).take a.length = a := by
  induction a with
  | nil => rfl
  | cons x a ih => simp [ih]

theorem drop_append_cons (a b : List Char) (c : Char) :
    (a ++ c :: b).drop (a.length + 1) = b := by
  induction a with
  | nil => rfl
  | cons x a ih =>
    simp only [List.cons_append, List.length_cons, List.drop_succ_cons]
    exact ih

theorem strDataAppend (s t : String) : (s ++ t).data = s.data ++ t.data := rfl

theorem findService_no_dot (smap : List ServiceModel) (sm : String) (h : '.' ∉ sm.data) :
    findService smap sm = Except.error (FindErr.illFormed sm) := by
  simp only [findService]
  rw [lastIndexDot_eq_none sm.data h]

theorem findService_split (smap : List ServiceModel) (sm sv mth : String)
    (hsp : sm.data = sv.data ++ '.' :: mth.data) (hnd : '.' ∉ mth.data) :
    findService smap sm =
      (match smap.find? (fun s => s.name == sv) with
       | none => Except.error (FindErr.serviceNotFound sv)
       | some svc =>
          if mth ∈ svc.methods then Except.ok (sv, mth)
          else Except.error (FindErr.methodNotFound mth)) := by
  have hlast : lastIndexDot sm.data = some sv.data.length := by
    rw [hsp]
    exact lastIndexDot_append sv.data mth.data hnd
  have htake : sm.data.take sv.data.length = sv.data := by
    rw [hsp]
    exact take_append_cons sv.data mth.data '.'
  have hdrop : sm.data.drop (sv.data.length + 1) = mth.data := by
    rw [hsp]
    exact drop_append_cons sv.data mth.data '.'
  simp only [findService, hlast]
  rw [htake, hdrop]

theorem serviceNotFound_msg_ne_methodNotFound_msg (a b : String) :
    FindErr.msg (FindErr.serviceNotFound a) ≠ FindErr.msg (FindErr.methodNotFound b) := by
  intro hEq
  have h2 : (FindErr.msg (FindErr.serviceNotFound a)).data
      = (FindErr.msg (FindErr.methodNotFound b)).data := by rw [hEq]
  simp only [FindErr.msg, strDataAppend] at h2
  have h3 := congrArg (fun l => l.take 24) h2
  simp only at h3
  rw [List.take_append_of_le_length (by decide),
    List.take_append_of_le_length (by decide)] at h3
  exact absurd h3 (by decide)

/-- C5: server method lookup splits the service-method string on its
rightmost '.': a string with no '.' yields the ill-formed error and the
request loop sends an error response and keeps serving the remaining
requests; when the string splits as `service ++ "." ++ method` (the method
part holding no further '.'), an unregistered service yields the
service-not-found error, a registered service with an unknown method yields
the method-not-found error, a known method resolves, and the two
not-found error messages are always distinct. -/
theorem findService_rightmost_split_errors :
    (∀ (smap : List ServiceModel) (sm : String), '.' ∉ sm.data →
        findService smap sm = Except.error (FindErr.illFormed sm)) ∧
    (∀ (smap : List ServiceModel) (hd : Header) (bodyErr : Option String)
        (rest : List WireEvent), '.' ∉ hd.ServiceMethod.data →
        serveCodec smap (WireEvent.request hd bodyErr :: rest) =
          SrvEvent.errorResponse hd.Seq
            (FindErr.msg (FindErr.illFormed hd.ServiceMethod)) :: serveCodec smap rest) ∧
    (∀ (smap : List ServiceModel) (sm sv mth : String),
        sm.data = sv.data ++ '.' :: mth.data → '.' ∉ mth.data →
        ((smap.find? (fun s => s.name == sv) = none →
            findService smap sm = Except.error (FindErr.serviceNotFound sv)) ∧
          (∀ svc, smap.find? (fun s => s.name == sv) = some svc → mth ∉ svc.methods →
            findService smap sm = Except.error (FindErr.methodNotFound mth)) ∧
          (∀ svc, smap.find? (fun s => s.name == sv) = some svc → mth ∈ svc.methods →
            findService smap sm = Except.ok (sv, mth)))) ∧
    (∀ a b : String,
        FindErr.msg (FindErr.serviceNotFound a) ≠ FindErr.msg (FindErr.methodNotFound b)) := by
  refine ⟨findService_no_dot, ?_, ?_, serviceNotFound_msg_ne_methodNotFound_msg⟩
  · intro smap hd bodyErr rest h
    simp only [serveCodec, findService_no_dot smap hd.ServiceMethod h]
  · intro smap sm sv mth hsp hnd
    have hfs := findService_split smap sm sv mth hsp hnd
    refine ⟨?_, ?_, ?_⟩
    · intro hfind
      rw [hfs, hfind]
    · intro svc hfind hmem
      rw [hfs, hfind]
      simp [hmem]
    · intro svc hfind hmem
      rw [hfs, hfind]
      simp [hmem]

/-- Witness for C5: with the single service "Arith" exposing method "Sum",
the four lookup outcomes and the loop continuation hold at concrete inputs. -/
theorem findService_rightmost_split_errors_witness :
    findService [⟨"Arith", ["Sum"]⟩] "ArithSum"
      = Except.error (FindErr.illFormed "ArithSum") ∧
    serveCodec [⟨"Arith", ["Sum"]⟩]
        [WireEvent.request ⟨"ArithSum", 7, ""⟩ none,
          WireEvent.request ⟨"Arith.Sum", 8, ""⟩ none]
      = SrvEvent.errorResponse 7 (FindErr.msg (FindErr.illFormed "ArithSum"))
          :: serveCodec [⟨"Arith", ["Sum"]⟩] [WireEvent.request ⟨"Arith.Sum", 8, ""⟩ none] ∧
    findService [⟨"Arith", ["Sum"]⟩] "Foo.Sum"
      = Except.error (FindErr.serviceNotFound "Foo") ∧
    findService [⟨"Arith", ["Sum"]⟩] "Arith.Mul"
      = Except.error (FindErr.methodNotFound "Mul") ∧
    findService [⟨"Arith", ["Sum"]⟩] "Arith.Sum" = Except.ok ("Arith", "Sum") ∧
    FindErr.msg (FindErr.serviceNotFound "Foo") ≠ FindErr.msg (FindErr.methodNotFound "Mul") :=
  ⟨findService_rightmost_split_errors.1 [⟨"Arith", ["Sum"]⟩] "ArithSum" (by decide),
   findService_rightmost_split_errors.2.1 [⟨"Arith", ["Sum"]⟩]
     ⟨"ArithSum", 7, ""⟩ none [WireEvent.request ⟨"Arith.Sum", 8, ""⟩ none] (by decide),
   (findService_rightmost_split_errors.2.2.1 [⟨"Arith", ["Sum"]⟩] "Foo.Sum" "Foo" "Sum"
     (by decide) (by decide)).1 (by decide),
   (findService_rightmost_split_errors.2.2.1 [⟨"Arith", ["Sum"]⟩] "Arith.Mul" "Arith" "Mul"
     (by decide) (by decide)).2.1 ⟨"Arith", ["Sum"]⟩ (by decide) (by decide),
   (findService_rightmost_split_errors.2.2.1 [⟨"Arith", ["Sum"]⟩] "Arith.Sum" "Arith" "Sum"
     (by decide) (by decide)).2.2 ⟨"Arith", ["Sum"]⟩ (by decide) (by decide),
   findService_rightmost_split_errors.2.2.2 "Foo" "Mul"⟩

/-! ## XClient.Broadcast aggregation (src/unnamed/part_002) -/

/-- Completion of one per-address call inside `Broadcast`: the error the call
returned (`none` on success) and the value its freshly cloned reply slot
holds. -/
structure BEvent (R : Type) where
  err : Option String
  reply : R

/-- The state shared by the broadcast goroutines under `mu`: the retained
error `e`, the `replyDone` latch, the caller's reply slot (`none` models a
nil `reply` argument, which is never written), and the number of times
`cancel()` has been invoked. -/
structure BState (R : Type) where
  e : Option String
  replyDone : Bool
  reply : Option R
  cancels : Nat

/-- The mutex-protected aggregation block run when one call completes: the
first error is retained into `e` and cancels the shared context; a success
while `replyDone` is unset copies the cloned reply into the caller's slot
and latches `replyDone`. -/
def broadcastStep {R : Type} (s : BState R) (ev : BEvent R) : BState R :=
  let s1 := if ev.err.isSome = true ∧ s.e = none
    then { s with e := ev.err, cancels := s.cancels + 1 } else s
  if ev.err = none ∧ s1.replyDone = false
    then { s1 with reply := some ev.reply, replyDone := true } else s1

/-- The aggregation state `Broadcast` starts from: no error, no cancel, and
`replyDone := reply == nil`. -/
def broadcastInit {R : Type} (reply0 : Option R) : BState R :=
  { e := none, replyDone := reply0.isNone, reply := reply0, cancels := 0 }

/-- `XClient.Broadcast` as seen by the aggregation state: fold the
mutex-serialized completion events; the returned error is the final `e`. -/
def Broadcast {R : Type} (reply0 : Option R) (evs : List (BEvent R)) : BState R :=
  evs.foldl broadcastStep (broadcastInit reply0)

/-- The first error among the completions, in mutex-acquisition order. -/
def firstErr {R : Type} (evs : List (BEvent R)) : Option String :=
  (evs.filterMap (fun ev => ev.err)).head?

/-- The reply of the first successful completion, if any. -/
def firstSuccess {R : Type} (evs : List (BEvent R)) : Option R :=
  ((evs.filter (fun ev => ev.err.isNone)).head?).map (fun ev => ev.reply)

theorem broadcastRun_err_inv {R : Type} (evs : List (BEvent R)) (s : BState R) :
    (s.e ≠ none →
      (evs.foldl broadcastStep s).e = s.e ∧
        (evs.foldl broadcastStep s).cancels = s.cancels) ∧
    (s.e = none →
      (evs.foldl broadcastStep s).e = firstErr evs ∧
        (evs.foldl broadcastStep s).cancels =
          s.cancels + (if evs.any (fun ev => ev.err.isSome) then 1 else 0)) := by
  induction evs generalizing s with
  | nil => simp [firstErr]
  | cons ev evs ih =>
    constructor
    · intro hs
      rcases he : ev.err with _ | m
      · have hstep : broadcastStep s ev =
            if s.replyDone = false
              then { s with reply := some ev.reply, replyDone := true } else s := by
          simp [broadcastStep, he]
        by_cases hrd : s.replyDone = false
        · rw [List.foldl_cons, hstep, if_pos hrd]
          exact (ih { s with reply := some ev.reply, replyDone := true }).1 hs
        · rw [List.foldl_cons, hstep, if_neg hrd]
          exact (ih s).1 hs
      · have hstep : broadcastStep s ev = s := by
          simp [broadcastStep, he, hs]
        rw [List.foldl_cons, hstep]
        exact (ih s).1 hs
    · intro hs
      rcases he : ev.err with _ | m
      · have hstep : broadcastStep s ev =
            if s.replyDone = false
              then { s with reply := some ev.reply, replyDone := true } else s := by
          simp [broadcastStep, he]
        have hfe : firstErr (ev :: evs) = firstErr evs := by
          simp [firstErr, List.filterMap_cons, he]
        have hany : (ev :: evs).any (fun ev => ev.err.isSome) =
            evs.any (fun ev => ev.err.isSome) := by
          simp [he]
        by_cases hrd : s.replyDone = false
        · rw [List.foldl_cons, hstep, if_pos hrd]
          have := (ih { s with reply := some ev.reply, replyDone := true }).2 hs
          simpa [hfe, hany] using this
        · rw [List.foldl_cons, hstep, if_neg hrd]
          have := (ih s).2 hs
          simpa [hfe, hany] using this
      · have hstep : broadcastStep s ev =
            { s with e := some m, cancels := s.cancels + 1 } := by
          simp [broadcastStep, he, hs]
        rw [List.foldl_cons, hstep]
        have := (ih { s with e := some m, cancels := s.cancels + 1 }).1 (by simp)
        refine ⟨?_, ?_⟩
        · rw [this.1]
          simp [firstErr, List.filterMap_cons, he]
        · rw [this.2]
          simp [he]

theorem broadcastRun_reply_inv {R : Type} (evs : List (BEvent R)) (s : BState R) :
    (s.replyDone = true →
      (evs.foldl broadcastStep s).reply = s.reply ∧
        (evs.foldl broadcastStep s).replyDone = true) ∧
    (s.replyDone = false →
      (evs.foldl broadcastStep s).reply =
        (match firstSuccess evs with
         | some r => some r
         | none => s.reply)) := by
  induction evs generalizing s with
  | nil => simp [firstSuccess]
  | cons ev evs ih =>
    constructor
    · intro hs
      rcases he : ev.err with _ | m
      · have hstep : broadcastStep s ev = s := by
          simp [broadcastStep, he, hs]
        rw [List.foldl_cons, hstep]
        exact (ih s).1 hs
      · by_cases hse : s.e = none
        · have hstep : broadcastStep s ev =
              { s with e := some m, cancels := s.cancels + 1 } := by
            simp [broadcastStep, he, hse, hs]
          rw [List.foldl_cons, hstep]
          exact (ih { s with e := some m, cancels := s.cancels + 1 }).1 hs
        · have hstep : broadcastStep s ev = s := by
            simp [broadcastStep, he, hse, hs]
          rw [List.foldl_cons, hstep]
          exact (ih s).1 hs
    · intro hs
      rcases he : ev.err with _ | m
      · have hstep : broadcastStep s ev =
            { s with reply := some ev.reply, replyDone := true } := by
          simp [broadcastStep, he, hs]
        rw [List.foldl_cons, hstep]
        have := (ih { s with reply := some ev.reply, replyDone := true }).1 rfl
        rw [this.1]
        simp [firstSuccess, List.filter_cons, he]
      · have hfs : firstSuccess (ev :: evs) = firstSuccess evs := by
          simp [firstSuccess, List.filter_cons, he]
        by_cases hse : s.e = none
        · have hstep : broadcastStep s ev =
              { s with e := some m, cancels := s.cancels + 1 } := by
            simp [broadcastStep, he, hse, hs]
          rw [List.foldl_cons, hstep, hfs]
          exact (ih { s with e := some m, cancels := s.cancels + 1 }).2 hs
        · have hstep : broadcastStep s ev = s := by
            simp [broadcastStep, he, hse, hs]
          rw [List.foldl_cons, hstep, hfs]
          exact (ih s).2 hs

/-- C6: under the aggregation mutex, the first error among the per-address
completions is retained and returned, and it triggers exactly one `cancel()`
of the shared context (none when every call succeeds); the first successful
reply is copied into the caller's slot and the latch makes later successes
no-ops; a nil caller reply starts latched and is never written; when every
call succeeds the returned error is nil. -/
theorem Broadcast_first_error_first_success (R : Type) (reply0 : Option R)
    (evs : List (BEvent R)) :
    (Broadcast reply0 evs).e = firstErr evs ∧
    (Broadcast reply0 evs).cancels =
      (if evs.any (fun ev => ev.err.isSome) then 1 else 0) ∧
    (Broadcast reply0 evs).reply =
      (match reply0 with
       | none => none
       | some r0 => some ((firstSuccess evs).getD r0)) ∧
    (reply0 = none → (Broadcast reply0 evs).reply = none) ∧
    ((∀ ev ∈ evs, ev.err = none) → (Broadcast reply0 evs).e = none) := by
  simp only [Broadcast]
  have herr := (broadcastRun_err_inv evs (broadcastInit reply0)).2 rfl
  refine ⟨herr.1, ?_, ?_, ?_, ?_⟩
  · rw [herr.2]
    simp [broadcastInit]
  · rcases reply0 with _ | r0
    · have := (broadcastRun_reply_inv evs (broadcastInit none)).1 rfl
      simpa [broadcastInit] using this.1
    · have := (broadcastRun_reply_inv evs (broadcastInit (some r0))).2 rfl
      rw [this]
      rcases hfs : firstSuccess evs with _ | r <;> simp [broadcastInit, hfs]
  · intro h0
    subst h0
    have := (broadcastRun_reply_inv evs (broadcastInit none)).1 rfl
    simpa [broadcastInit] using this.1
  · intro hall
    rw [herr.1]
    simp only [firstErr]
    rw [List.filterMap_eq_nil_iff.2 hall]
    rfl

/-- Witness for C6: three completions (success 3, error "dead", success 7)
retain the first error, cancel once, and keep the first success 3; a nil
reply slot stays unwritten. -/
theorem Broadcast_first_error_first_success_witness :
    (Broadcast (some 0)
      [BEvent.mk none 3, BEvent.mk (some "dead") 9, BEvent.mk none 7]).e = some "dead" ∧
    (Broadcast (some 0)
      [BEvent.mk none 3, BEvent.mk (some "dead") 9, BEvent.mk none 7]).cancels = 1 ∧
    (Broadcast (some 0)
      [BEvent.mk none 3, BEvent.mk (some "dead") 9, BEvent.mk none 7]).reply = some 3 ∧
    (Broadcast (none : Option Nat)
      [BEvent.mk none 3, BEvent.mk (some "dead") 9, BEvent.mk none 7]).reply = none := by
  have h1 := Broadcast_first_error_first_success Nat (some 0)
    [BEvent.mk none 3, BEvent.mk (some "dead") 9, BEvent.mk none 7]
  have h2 := Broadcast_first_error_first_success Nat none
    [BEvent.mk none 3, BEvent.mk (some "dead") 9, BEvent.mk none 7]
  refine ⟨?_, ?_, ?_, h2.2.2.2.1 rfl⟩
  · rw [h1.1]
    rfl
  · rw [h1.2.1]
    rfl
  · rw [h1.2.2.1]
    rfl

/-! ## Heartbeat registry (src/registry/registry.go) -/

/-- A registered server: its address and the time of its last heartbeat
(`start`), on a discrete clock. -/
structure ServerItem where
  Addr : String
  start : Nat
  deriving DecidableEq, Repr

/-- The registry: the expiry timeout and the server map (keyed by `Addr`). -/
structure SimpleRegistry where
  timeout : Nat
  servers : List ServerItem
  deriving DecidableEq, Repr

/-- The liveness test of `aliveServers`:
`r.timeout == 0 || s.start.Add(r.timeout).After(time.Now())`. -/
def ServerItem.alive (timeout now : Nat) (s : ServerItem) : Bool :=
  timeout == 0 || decide (s.start + timeout > now)

/-- The servers list after `putServer(addr)`: update `start` to now when the
address is present, otherwise insert a fresh item. -/
def putServerList (l : List ServerItem) (addr : String) (now : Nat) : List ServerItem :=
  if l.any (fun it => it.Addr == addr) then
    l.map (fun it => if it.Addr == addr then { it with start := now } else it)
  else l ++ [{ Addr := addr, start := now }]

/-- `SimpleRegistry.putServer`: upsert the address with `start := time.Now()`. -/
def SimpleRegistry.putServer (r : SimpleRegistry) (addr : String) (now : Nat) :
    SimpleRegistry :=
  { r with servers := putServerList r.servers addr now }

/-- `SimpleRegistry.aliveServers`: delete every expired entry, keep the rest,
and return the kept addresses sorted. -/
def SimpleRegistry.aliveServers (r : SimpleRegistry) (now : Nat) :
    List String × SimpleRegistry :=
  let keep := r.servers.filter (ServerItem.alive r.timeout now)
  (List.insertionSort (fun a b : String => a ≤ b) (keep.map ServerItem.Addr),
   { r with servers := keep })

/-- The HTTP methods the registry distinguishes. -/
inductive HttpMethod where
  | GET
  | POST
  | other
  deriving DecidableEq, Repr

/-- The observable part of the registry's HTTP response: the status code and
the `X-Simplerpc-Servers` response header, when set. -/
structure RegResponse where
  status : Nat
  serversHeader : Option String
  deriving DecidableEq, Repr

/-- `SimpleRegistry.ServeHTTP`: GET sweeps expired entries (`aliveServers` is
called twice, once for the debug print and once for the header) and returns
the remaining addresses joined by ","; POST reads the request header as one
address — empty means 500 and no change, otherwise upsert; any other method
yields 405. -/
def SimpleRegistry.ServeHTTP (r : SimpleRegistry) (now : Nat) (m : HttpMethod)
    (reqHeader : String) : RegResponse × SimpleRegistry :=
  match m with
  | HttpMethod.GET =>
    let a1 := r.aliveServers now
    let a2 := a1.snd.aliveServers now
    ({ status := 200, serversHeader := some (String.intercalate "," a2.fst) }, a2.snd)
  | HttpMethod.POST =>
    if reqHeader = "" then ({ status := 500, serversHeader := none }, r)
    else ({ status := 200, serversHeader := none }, r.putServer reqHeader now)
  | HttpMethod.other => ({ status := 405, serversHeader := none }, r)

/-- Lookup of an address's `start` time in a servers list. -/
def regLookup (l : List ServerItem) (a : String) : Option Nat :=
  (l.find? (fun it => it.Addr == a)).map ServerItem.start

theorem filter_idem (l : List ServerItem) (p : ServerItem → Bool) :
    (l.filter p).filter p = l.filter p := by
  induction l with
  | nil => rfl
  | cons x xs ih => by_cases hx : p x <;> simp [hx, ih]

theorem find?_addr_map (l : List ServerItem) (g : ServerItem → ServerItem)
    (hg : ∀ it, (g it).Addr = it.Addr) (b : String) :
    (l.map g).find? (fun it => it.Addr == b) =
      (l.find? (fun it => it.Addr == b)).map g := by
  induction l with
  | nil => rfl
  | cons x xs ih =>
    rw [List.map_cons, List.find?_cons, List.find?_cons, hg x]
    cases hx : x.Addr == b
    · exact ih
    · rfl

theorem upd_preserves_addr (addr : String) (now : Nat) (it : ServerItem) :
    ((fun it : ServerItem =>
      if it.Addr == addr then { it with start := now } else it) it).Addr = it.Addr := by
  by_cases h : (it.Addr == addr) = true <;> simp [h]

theorem find?_append_single_neg (l : List ServerItem) (x : ServerItem)
    (p : ServerItem → Bool) (hx : p x = false) :
    (l ++ [x]).find? p = l.find? p := by
  induction l with
  | nil => simp [List.find?_cons, hx]
  | cons y ys ih =>
    cases hy : p y <;> simp [List.find?_cons, hy, ih]

theorem find?_append_self (l : List ServerItem) (addr : String) (now : Nat)
    (h : ∀ it ∈ l, ¬(it.Addr = addr)) :
    regLookup (l ++ [{ Addr := addr, start := now }]) addr = some now := by
  induction l with
  | nil => simp [regLookup, List.find?_cons]
  | cons y ys ih =>
    have hy : ¬(y.Addr = addr) := h y (by simp)
    have hyb : (y.Addr == addr) = false := beq_eq_false_iff_ne.2 hy
    have := ih (fun it hit => h it (List.mem_cons_of_mem y hit))
    simp only [regLookup] at this ⊢
    rw [List.cons_append, List.find?_cons, hyb]
    exact this

theorem regLookup_put_self (l : List ServerItem) (addr : String) (now : Nat) :
    regLookup (putServerList l addr now) addr = some now := by
  unfold putServerList
  cases hany : l.any (fun it => it.Addr == addr) with
  | true =>
    rw [if_pos rfl]
    unfold regLookup
    rw [find?_addr_map l _ (upd_preserves_addr addr now) addr]
    have hsome : (l.find? (fun it => it.Addr == addr)).isSome := by
      rw [List.find?_isSome]
      exact List.any_eq_true.1 hany
    obtain ⟨y, hy⟩ := Option.isSome_iff_exists.1 hsome
    rw [hy]
    have hpy := List.find?_some hy
    have hq : y.Addr = addr := by simpa using hpy
    simp [hq]
  | false =>
    rw [if_neg (by simp)]
    refine find?_append_self l addr now ?_
    intro it hit hc
    have habs : l.any (fun it => it.Addr == addr) = true :=
      List.any_eq_true.2 ⟨it, hit, by simpa using hc⟩
    rw [hany] at habs
    exact absurd habs (by simp)

theorem regLookup_put_other (l : List ServerItem) (addr b : String) (now : Nat)
    (hb : ¬(b = addr)) :
    regLookup (putServerList l addr now) b = regLookup l b := by
  unfold putServerList
  cases hany : l.any (fun it => it.Addr == addr) with
  | true =>
    rw [if_pos rfl]
    unfold regLookup
    rw [find?_addr_map l _ (upd_preserves_addr addr now) b]
    cases hf : l.find? (fun it => it.Addr == b) with
    | none => rfl
    | some y =>
      have hpy := List.find?_some hf
      have hyb : y.Addr = b := by simpa using hpy
      have hy : ¬(y.Addr = addr) := by
        rw [hyb]
        exact hb
      simp [hy]
  | false =>
    rw [if_neg (by simp)]
    unfold regLookup
    rw [find?_append_single_neg l _ _ ?_]
    show (({ Addr := addr, start := now } : ServerItem).Addr == b) = false
    simp only [beq_eq_false_iff_ne]
    exact fun hc => hb hc.symm

theorem ServeHTTP_GET (r : SimpleRegistry) (now : Nat) (hdr : String) :
    SimpleRegistry.ServeHTTP r now HttpMethod.GET hdr =
      ({ status := 200,
         serversHeader := some (String.intercalate ","
           (List.insertionSort (fun a b : String => a ≤ b)
             ((r.servers.filter (ServerItem.alive r.timeout now)).map ServerItem.Addr))) },
       { r with servers := r.servers.filter (ServerItem.alive r.timeout now) }) := by
  simp only [SimpleRegistry.ServeHTTP, SimpleRegistry.aliveServers]
  rw [filter_idem]

/-- C7: a registry entry is alive iff `ttl = 0` or `now − last_seen < ttl`;
GET deletes every expired entry, keeping exactly the alive ones, and returns
their addresses sorted and joined by "," in the response header; POST with an
empty `X-Simplerpc-Servers` header yields 500 and no state change; POST with
a non-empty address upserts it with `last_seen := now` leaving every other
address unchanged; any other method yields 405. -/
theorem registry_alive_get_post_behaviour (r : SimpleRegistry) (now : Nat) (hdr : String) :
    (∀ it : ServerItem, ServerItem.alive r.timeout now it = true ↔
        (r.timeout = 0 ∨ now - it.start < r.timeout)) ∧
    ((SimpleRegistry.ServeHTTP r now HttpMethod.GET hdr).snd.servers =
        r.servers.filter (ServerItem.alive r.timeout now)) ∧
    (∃ L : List String,
        (SimpleRegistry.ServeHTTP r now HttpMethod.GET hdr).fst =
          { status := 200, serversHeader := some (String.intercalate "," L) } ∧
        L.Perm ((r.servers.filter (ServerItem.alive r.timeout now)).map ServerItem.Addr) ∧
        L.Sorted (fun a b : String => a ≤ b)) ∧
    (SimpleRegistry.ServeHTTP r now HttpMethod.POST "" =
      ({ status := 500, serversHeader := none }, r)) ∧
    (hdr ≠ "" →
        SimpleRegistry.ServeHTTP r now HttpMethod.POST hdr =
          ({ status := 200, serversHeader := none }, r.putServer hdr now) ∧
        regLookup (r.putServer hdr now).servers hdr = some now ∧
        ∀ b, ¬(b = hdr) →
          regLookup (r.putServer hdr now).servers b = regLookup r.servers b) ∧
    (SimpleRegistry.ServeHTTP r now HttpMethod.other hdr =
      ({ status := 405, serversHeader := none }, r)) := by
  refine ⟨?_, ?_, ?_, ?_, ?_, rfl⟩
  · intro it
    simp only [ServerItem.alive, Bool.or_eq_true, beq_iff_eq, decide_eq_true_eq]
    omega
  · rw [ServeHTTP_GET]
  · refine ⟨List.insertionSort (fun a b : String => a ≤ b)
      ((r.servers.filter (ServerItem.alive r.timeout now)).map ServerItem.Addr),
      ?_, List.perm_insertionSort _ _, List.sorted_insertionSort _ _⟩
    rw [ServeHTTP_GET]
  · simp [SimpleRegistry.ServeHTTP]
  · intro h0
    refine ⟨by simp [SimpleRegistry.ServeHTTP, h0], regLookup_put_self r.servers hdr now,
      fun b hb => regLookup_put_other r.servers hdr b now hb⟩

/-- Witness for C7: with ttl 5 at time 6, the entry last seen at 0 is expired
and the one last seen at 3 survives; GET returns exactly it; the POST and 405
behaviours hold at concrete inputs, and with ttl 0 both entries survive and
GET returns them sorted as "a,b". -/
theorem registry_alive_get_post_behaviour_witness :
    ServerItem.alive 5 6 { Addr := "b", start := 0 } = false ∧
    (SimpleRegistry.ServeHTTP
        { timeout := 5, servers := [{ Addr := "b", start := 0 }, { Addr := "a", start := 3 }] }
        6 HttpMethod.GET "").snd.servers = [{ Addr := "a", start := 3 }] ∧
    (SimpleRegistry.ServeHTTP
        { timeout := 0, servers := [{ Addr := "b", start := 0 }, { Addr := "a", start := 3 }] }
        6 HttpMethod.GET "").fst.serversHeader = some "a,b" ∧
    SimpleRegistry.ServeHTTP
        { timeout := 5, servers := [{ Addr := "b", start := 0 }] } 6 HttpMethod.POST "" =
      ({ status := 500, serversHeader := none },
        { timeout := 5, servers := [{ Addr := "b", start := 0 }] }) ∧
    regLookup ((SimpleRegistry.putServer
        { timeout := 5, servers := [{ Addr := "b", start := 0 }] } "b" 6)).servers "b"
      = some 6 ∧
    SimpleRegistry.ServeHTTP
        { timeout := 5, servers := [{ Addr := "b", start := 0 }] } 6 HttpMethod.other "x" =
      ({ status := 405, serversHeader := none },
        { timeout := 5, servers := [{ Addr := "b", start := 0 }] }) := by
  have h5 := registry_alive_get_post_behaviour
    { timeout := 5, servers := [{ Addr := "b", start := 0 }, { Addr := "a", start := 3 }] } 6 ""
  have h0 := registry_alive_get_post_behaviour
    { timeout := 0, servers := [{ Addr := "b", start := 0 }, { Addr := "a", start := 3 }] } 6 ""
  have hp := registry_alive_get_post_behaviour
    { timeout := 5, servers := [{ Addr := "b", start := 0 }] } 6 "b"
  refine ⟨by decide, ?_, ?_, hp.2.2.2.1, (hp.2.2.2.2.1 (by decide)).2.1, hp.2.2.2.2.2⟩
  · rw [h5.2.1]
    decide
  · rw [ServeHTTP_GET]
    simp [List.insertionSort, List.orderedInsert, ServerItem.alive]
    decide

/-! ## HTTP CONNECT upgrade (src/unnamed/part_001, NewHTTPClient; src/server.go) -/

/-- The default RPC path (`defaultRPCPath` in server.go). -/
def defaultRPCPath : String := "/_simplerpc_"

/-- The status line the server answers a CONNECT with (`connected` in
server.go). -/
def connected : String := "200 Connected to Gee RPC"

/-- The bytes `NewHTTPClient` writes before reading the response:
`fmt.Sprintf("CONNECT %s HTTP/1.0\n\n", defaultRPCPath)`. -/
def httpConnectRequest : String := "CONNECT " ++ defaultRPCPath ++ " HTTP/1.0\n\n"

/-- `NewHTTPClient` after the request write: `readResp` is the outcome of
`http.ReadResponse` (`ok status` or a read error). The `ok ()` result stands
for proceeding to `NewClient` (the normal option handshake); every other
outcome returns an error and constructs no client. -/
def NewHTTPClient (readResp : Except String String) : Except String Unit :=
  match readResp with
  | Except.ok st =>
    if st = connected then Except.ok ()
    else Except.error ("unexpected HTTP response:" ++ st)
  | Except.error e => Except.error e

/-! ## C8: the CONNECT request bytes and the status gate -/

set_option maxRecDepth 4096 in
/-- C8 counterexample: the request is terminated by two bare line feeds, not
by the claimed `\r\n\r\n` sequence. -/
theorem httpConnectRequest_crlf_cex :
    httpConnectRequest ≠ "CONNECT /_simplerpc_ HTTP/1.0\r\n\r\n" ∧
    httpConnectRequest = "CONNECT /_simplerpc_ HTTP/1.0\n\n" := by decide

/-- C8 (amended): the HTTP client sends exactly
`CONNECT /_simplerpc_ HTTP/1.0` terminated by `\n\n` (bare LFs), and
proceeds with the normal option handshake iff the response was read
successfully with status exactly "200 Connected to Gee RPC"; any other
status yields the "unexpected HTTP response:" error and a read failure is
returned as is, so no client is constructed. -/
theorem NewHTTPClient_request_and_status :
    httpConnectRequest = "CONNECT /_simplerpc_ HTTP/1.0\n\n" ∧
    (∀ st : String, NewHTTPClient (Except.ok st) = Except.ok () ↔ st = connected) ∧
    (∀ st : String, st ≠ connected →
        NewHTTPClient (Except.ok st) = Except.error ("unexpected HTTP response:" ++ st)) ∧
    (∀ e : String, NewHTTPClient (Except.error e) = Except.error e) := by
  refine ⟨by decide, ?_, ?_, fun e => rfl⟩
  · intro st
    by_cases h : st = connected <;> simp [NewHTTPClient, h]
  · intro st h
    simp [NewHTTPClient, h]

/-- Witness for C8 (amended): the expected status proceeds, a 404 yields the
unexpected-response error, and a read failure is passed through. -/
theorem NewHTTPClient_request_and_status_witness :
    NewHTTPClient (Except.ok "200 Connected to Gee RPC") = Except.ok () ∧
    NewHTTPClient (Except.ok "404 Not Found") =
      Except.error ("unexpected HTTP response:" ++ "404 Not Found") ∧
    NewHTTPClient (Except.error "EOF") = Except.error "EOF" :=
  ⟨(NewHTTPClient_request_and_status.2.1 "200 Connected to Gee RPC").2 rfl,
   NewHTTPClient_request_and_status.2.2.1 "404 Not Found" (by decide),
   NewHTTPClient_request_and_status.2.2.2 "EOF"⟩

/-! ## Discovery initial index (src/unnamed/part_002, NewMultiServerDiscovery) -/

/-- Go's `math.MaxInt32`. -/
def maxInt32 : Nat := 2 ^ 31 - 1

/-- The argument `NewMultiServerDiscovery` passes to `rand.Intn`:
`math.MaxInt32 - 1`. -/
def multiDiscoveryIndexBound : Nat := maxInt32 - 1

/-- The set of possible results of `r.Intn(n)`: the integers in `[0, n)`. -/
def intnRange (n : Nat) : Finset Nat := Finset.range n

/-! ## C9: the range of the initial round-robin index -/

/-- C9 counterexample: 2^31 − 2 lies in the claimed half-open interval
`[0, 2^31 − 1)` but is not a possible result of `Intn(math.MaxInt32 − 1)`. -/
theorem NewMultiServerDiscovery_index_range_cex :
    2 ^ 31 - 2 ∉ intnRange multiDiscoveryIndexBound ∧
    2 ^ 31 - 2 < 2 ^ 31 - 1 := by
  constructor
  · simp only [intnRange, Finset.mem_range, multiDiscoveryIndexBound, maxInt32]
    norm_num
  · norm_num

/-- C9 (amended): the initial round-robin index is drawn uniformly from
`Intn(math.MaxInt32 − 1)`, whose possible values are exactly the integers of
the half-open interval `[0, 2^31 − 2)`, that is, 0 through 2^31 − 3
inclusive and no others. -/
theorem NewMultiServerDiscovery_index_range (k : Nat) :
    k ∈ intnRange multiDiscoveryIndexBound ↔ k ≤ 2 ^ 31 - 3 := by
  have hb : multiDiscoveryIndexBound = 2147483646 := by
    norm_num [multiDiscoveryIndexBound, maxInt32]
  have h3 : 2 ^ 31 - 3 = 2147483645 := by norm_num
  rw [intnRange, hb, h3, Finset.mem_range]
  omega

/-- Witness for C9 (amended): 0 is a possible initial index. -/
theorem NewMultiServerDiscovery_index_range_witness :
    0 ∈ intnRange multiDiscoveryIndexBound :=
  (NewMultiServerDiscovery_index_range 0).2 (by decide)

/-! ## Option parsing (src/unnamed/part_001, parseOptions; src/server.go) -/

/-- The `Option` struct of the handshake preamble (durations in
nanoseconds). -/
structure RpcOption where
  MagicNumber : Nat
  CodecType : String
  ConnectTimeout : Nat
  HandleTimeout : Nat
  deriving DecidableEq, Repr

/-- `MagicNumber = 0x3bef5c` from server.go. -/
def MagicNumber : Nat := 0x3bef5c

/-- The gob codec type tag. -/
def GobType : String := "application/gob"

/-- `DefaultOption`: the default magic, the gob codec, a 10 s connect
timeout and no handle timeout. -/
def DefaultOption : RpcOption :=
  { MagicNumber := MagicNumber, CodecType := GobType,
    ConnectTimeout := 10000000000, HandleTimeout := 0 }

/-- `parseOptions(opts ...*Option)`: no options or a nil first option yields
the default; more than one (non-nil-first) option is an error; otherwise the
single option gets the default magic forced and an empty codec type replaced
by gob. -/
def parseOptions (opts : List (Option RpcOption)) : Except String RpcOption :=
  match opts with
  | [] => Except.ok DefaultOption
  | none :: _ => Except.ok DefaultOption
  | some o :: rest =>
    if rest.length ≠ 0 then Except.error "number of options is more than 1"
    else
      Except.ok
        { o with
          MagicNumber := DefaultOption.MagicNumber,
          CodecType := if o.CodecType = "" then DefaultOption.CodecType else o.CodecType }

/-- The codec types registered in `codec.NewCodecFuncMap` at init: only the
gob codec. -/
def NewCodecFuncMapKeys : List String := [GobType]

/-- Whether `NewClient` finds a codec constructor for the option (the client
is only built when it does). -/
def clientCodecKnown (o : RpcOption) : Bool := NewCodecFuncMapKeys.contains o.CodecType

/-- Whether `ServeConn` accepts the option as well-formed: right magic and a
known codec type. -/
def serverAcceptsOption (o : RpcOption) : Bool :=
  (o.MagicNumber == MagicNumber) && NewCodecFuncMapKeys.contains o.CodecType

/-! ## C10: parseOptions defaults and server acceptance -/

/-- C10 counterexample: a two-element option list whose first element is nil
is not rejected — `parseOptions` returns the default option — so passing
more than one option is not always an error. -/
theorem parseOptions_two_options_cex :
    parseOptions [none, some DefaultOption] = Except.ok DefaultOption ∧
    ([none, some DefaultOption] : List (Option RpcOption)).length > 1 :=
  ⟨rfl, by decide⟩

/-- C10 (amended): `parseOptions` forces the default magic 0x3bef5c and
replaces an empty codec type with gob; no options or a nil first option
yields the default (regardless of any options after a nil first); more than
one option with a non-nil first is an error; and every option a built client
sends (parsing succeeded and the client found its codec) the server accepts
as well-formed. -/
theorem parseOptions_defaults_and_accept :
    parseOptions [] = Except.ok DefaultOption ∧
    (∀ rest, parseOptions (none :: rest) = Except.ok DefaultOption) ∧
    (∀ o : RpcOption, parseOptions [some o] =
        Except.ok
          { o with
            MagicNumber := MagicNumber,
            CodecType := if o.CodecType = "" then GobType else o.CodecType }) ∧
    (∀ (o : RpcOption) (rest : List (Option RpcOption)), rest ≠ [] →
        parseOptions (some o :: rest) = Except.error "number of options is more than 1") ∧
    (∀ (opts : List (Option RpcOption)) (o : RpcOption), parseOptions opts = Except.ok o →
        o.MagicNumber = MagicNumber ∧ o.CodecType ≠ "" ∧
        (clientCodecKnown o = true → serverAcceptsOption o = true)) := by
  refine ⟨rfl, fun rest => rfl, ?_, ?_, ?_⟩
  · intro o
    simp [parseOptions, DefaultOption]
  · intro o rest h
    simp [parseOptions, h]
  · intro opts o hok
    have hmagic : o.MagicNumber = MagicNumber ∧ o.CodecType ≠ "" := by
      match opts with
      | [] =>
        simp only [parseOptions, Except.ok.injEq] at hok
        rw [← hok]
        exact ⟨rfl, by decide⟩
      | none :: rest =>
        simp only [parseOptions, Except.ok.injEq] at hok
        rw [← hok]
        exact ⟨rfl, by decide⟩
      | some o0 :: rest =>
        simp only [parseOptions] at hok
        by_cases hr : rest.length ≠ 0
        · rw [if_pos hr] at hok
          cases hok
        · rw [if_neg hr] at hok
          have h2 := Except.ok.inj hok
          rw [← h2]
          refine ⟨rfl, ?_⟩
          show (if o0.CodecType = "" then DefaultOption.CodecType else o0.CodecType) ≠ ""
          by_cases hc : o0.CodecType = ""
          · rw [if_pos hc]
            decide
          · rw [if_neg hc]
            exact hc
    refine ⟨hmagic.1, hmagic.2, ?_⟩
    intro hknown
    simp only [serverAcceptsOption, Bool.and_eq_true]
    exact ⟨by simp [hmagic.1], hknown⟩

/-- Witness for C10 (amended): an empty codec type becomes gob with the
magic forced; two non-nil options are an error; the default option built by
parsing no options is accepted by the server. -/
theorem parseOptions_defaults_and_accept_witness :
    parseOptions
        [some
          { MagicNumber := 0,
            CodecType := "",
            ConnectTimeout := 0,
            HandleTimeout := 0 }] =
      Except.ok
        { MagicNumber := MagicNumber,
          CodecType := GobType,
          ConnectTimeout := 0,
          HandleTimeout := 0 } ∧
    parseOptions [some DefaultOption, some DefaultOption] =
      Except.error "number of options is more than 1" ∧
    (DefaultOption.MagicNumber = MagicNumber ∧ DefaultOption.CodecType ≠ "" ∧
      (clientCodecKnown DefaultOption = true → serverAcceptsOption DefaultOption = true)) := by
  refine ⟨?_, ?_, ?_⟩
  · rw [parseOptions_defaults_and_accept.2.2.1
      { MagicNumber := 0, CodecType := "", ConnectTimeout := 0, HandleTimeout := 0 }]
    rfl
  · exact parseOptions_defaults_and_accept.2.2.2.1 DefaultOption [some DefaultOption]
      (by decide)
  · exact parseOptions_defaults_and_accept.2.2.2.2 [] DefaultOption
      parseOptions_defaults_and_accept.1
